import Mathlib

/-!
Verification of the core spectrum type of the WarwickAstro spectra package.

The development shallowly embeds the parts of src/spectra/__init__.py that the
claims concern: the Spectrum class (wavelength, flux and error arrays plus
name, medium and unit tags), its constructor checks, the arithmetic operators
with error propagation, linear resampling, model scaling, join/split,
redshift application, and the Gaussian convolution routines.

Python float arrays are modelled as lists of real numbers.  A Python assert
that fails is modelled by an operation returning none, so every operation
that can raise returns an Option.  Unit descriptors are strings; the astropy
unit algebra (an external library) is modelled by formal string operations.
-/

namespace Spectra

noncomputable section

/-- Modelled from the spec: astropy unit multiplication, (u1*u2).to_string().
The astropy unit library is external to the repository; unit descriptors are
modelled as strings and the product as a formal string operation. -/
def unitMul (a b : String) : String := a ++ " " ++ b

/-- Modelled from the spec: astropy unit division, (u1/u2).to_string(). -/
def unitDiv (a b : String) : String := a ++ " / (" ++ b ++ ")"

/-- Modelled from the spec: astropy unit inversion, (1/u).to_string(). -/
def unitInv (a : String) : String := "1 / (" ++ a ++ ")"

/-- Embedding of the Spectrum class of src/spectra/__init__.py: the slots
name, head, x, y, e, wave, x_unit, y_unit.  The numpy arrays x, y, e are
lists of reals (one-dimensionality of the arrays is inherent in the list
model); head is an association list standing for the python dict. -/
structure Spectrum where
  name : String
  wave : String
  x_unit : String
  y_unit : String
  x : List ℝ
  y : List ℝ
  e : List ℝ
  head : List (String × String)

/-- Invariant checked by the constructor: the three arrays share one length
and every error entry is non-negative. -/
def Spectrum.valid (S : Spectrum) : Prop :=
  S.x.length = S.y.length ∧ S.y.length = S.e.length ∧ ∀ a ∈ S.e, 0 ≤ a

/-- Embedding of the constructor Spectrum.__init__.  The source asserts that
x, y, e are one-dimensional arrays of equal length and that every error is
non-negative, then stores the fields and an empty header; a failing assert
is modelled as none.  The astropy normalisation u.Unit(s).to_string() of the
two unit strings is modelled as the identity (descriptors are taken as
already normalised). -/
def Spectrum.init (x y e : List ℝ) (name : String) (wave : String)
    (x_unit : String) (y_unit : String) : Option Spectrum :=
  if x.length = y.length ∧ y.length = e.length ∧ ∀ a ∈ e, 0 ≤ a then
    some ⟨name, wave, x_unit, y_unit, x, y, e, []⟩
  else none

/-- Embedding of numpy isclose with the default tolerances
rtol = 1e-5, atol = 1e-8: |a - b| ≤ atol + rtol*|b|. -/
def isclose (a b : ℝ) : Prop := |a - b| ≤ 1e-8 + 1e-5 * |b|

/-- Elementwise np.all(np.isclose(xs, ys)) for two arrays. -/
def iscloseAll (xs ys : List ℝ) : Prop := List.Forall₂ isclose xs ys

open Classical in
/-- Embedding of Spectrum.__add__ for a Spectrum operand: asserts equal
length, elementwise-close wavelengths and equal x/y units, then builds
Spectrum(0.5*(x1+x2), y1+y2, hypot(e1,e2)) with the left operand's name,
medium and units. -/
def Spectrum.add (s o : Spectrum) : Option Spectrum :=
  if s.x.length = o.x.length ∧ iscloseAll s.x o.x ∧
      s.x_unit = o.x_unit ∧ s.y_unit = o.y_unit then
    Spectrum.init (List.zipWith (fun a b => 0.5 * (a + b)) s.x o.x)
      (List.zipWith (fun a b => a + b) s.y o.y)
      (List.zipWith (fun a b => Real.sqrt (a ^ 2 + b ^ 2)) s.e o.e)
      s.name s.wave s.x_unit s.y_unit
  else none

open Classical in
/-- Embedding of Spectrum.__sub__ for a Spectrum operand: same preconditions
as addition; flux y1-y2, error hypot(e1,e2), averaged wavelengths. -/
def Spectrum.sub (s o : Spectrum) : Option Spectrum :=
  if s.x.length = o.x.length ∧ iscloseAll s.x o.x ∧
      s.x_unit = o.x_unit ∧ s.y_unit = o.y_unit then
    Spectrum.init (List.zipWith (fun a b => 0.5 * (a + b)) s.x o.x)
      (List.zipWith (fun a b => a - b) s.y o.y)
      (List.zipWith (fun a b => Real.sqrt (a ^ 2 + b ^ 2)) s.e o.e)
      s.name s.wave s.x_unit s.y_unit
  else none

open Classical in
/-- Embedding of Spectrum.__mul__ for a Spectrum operand: asserts equal
length, close wavelengths and equal x units (the y units are not compared:
the result unit is their product); flux y1*y2, error
|y1*y2|*hypot(e1/y1, e2/y2), averaged wavelengths. -/
def Spectrum.mul (s o : Spectrum) : Option Spectrum :=
  if s.x.length = o.x.length ∧ iscloseAll s.x o.x ∧ s.x_unit = o.x_unit then
    let y2 := List.zipWith (fun a b => a * b) s.y o.y
    let r1 := List.zipWith (fun a b => a / b) s.e s.y
    let r2 := List.zipWith (fun a b => a / b) o.e o.y
    Spectrum.init (List.zipWith (fun a b => 0.5 * (a + b)) s.x o.x) y2
      (List.zipWith (fun a b => |a| * b) y2
        (List.zipWith (fun a b => Real.sqrt (a ^ 2 + b ^ 2)) r1 r2))
      s.name s.wave s.x_unit (unitMul s.y_unit o.y_unit)
  else none

open Classical in
/-- Embedding of Spectrum.__truediv__ for a Spectrum operand: same
preconditions as multiplication (y units not compared, result unit is the
quotient); flux y1/y2, error |y1/y2|*hypot(e1/y1, e2/y2). -/
def Spectrum.div (s o : Spectrum) : Option Spectrum :=
  if s.x.length = o.x.length ∧ iscloseAll s.x o.x ∧ s.x_unit = o.x_unit then
    let y2 := List.zipWith (fun a b => a / b) s.y o.y
    let r1 := List.zipWith (fun a b => a / b) s.e s.y
    let r2 := List.zipWith (fun a b => a / b) o.e o.y
    Spectrum.init (List.zipWith (fun a b => 0.5 * (a + b)) s.x o.x) y2
      (List.zipWith (fun a b => |a| * b) y2
        (List.zipWith (fun a b => Real.sqrt (a ^ 2 + b ^ 2)) r1 r2))
      s.name s.wave s.x_unit (unitDiv s.y_unit o.y_unit)
  else none

/-- Embedding of the scalar branch of Spectrum.__mul__: flux y*k, error
e*|k|, wavelengths copied, unit preserved. -/
def Spectrum.mulScalar (s : Spectrum) (k : ℝ) : Option Spectrum :=
  Spectrum.init s.x (s.y.map (fun a => a * k)) (s.e.map (fun a => a * |k|))
    s.name s.wave s.x_unit s.y_unit

/-- Embedding of Spectrum.__rtruediv__ for a scalar operand k: flux k/y and
error k*e/(y*y) -- the source takes no absolute value of k, so for negative
k with a nonzero error the constructor assert np.all(e >= 0) fires, modelled
as none.  The result unit is the inverted flux unit. -/
def Spectrum.rtruediv (k : ℝ) (s : Spectrum) : Option Spectrum :=
  Spectrum.init s.x (s.y.map (fun a => k / a))
    (List.zipWith (fun ei yi => k * ei / (yi * yi)) s.e s.y)
    s.name s.wave s.x_unit (unitInv s.y_unit)

/-- Embedding of scipy interp1d with kind linear on sorted abscissae, for
arguments inside the data range: walk the (x, y) pairs to the first segment
whose right endpoint is at least t and interpolate linearly on it.  (scipy
raises outside the range when bounds_error is left True; the callers below
either guard the range themselves or pass in-range points only.) -/
def interp_pts : List (ℝ × ℝ) → ℝ → ℝ
  | [], _ => 0
  | [(_, yl)], _ => yl
  | (x1, y1) :: (x2, y2) :: rest, t =>
    if t ≤ x2 then y1 + (y2 - y1) * (t - x1) / (x2 - x1)
    else interp_pts ((x2, y2) :: rest) t

/-- Embedding of interp1d(xs, ys, kind=linear, bounds_error=False,
fill_value=0): a target below the first or above the last abscissa gets the
fill value 0, anything else is linearly interpolated. -/
def interp1d_zero (xs ys : List ℝ) (t : ℝ) : ℝ :=
  if t < (xs.head?.getD 0) ∨ (xs.getLast?.getD 0) < t then 0
  else interp_pts (xs.zip ys) t

/-- Embedding of Spectrum.interp_wave with a numpy-array target and the
default kind linear (the else branch of the source): x2 = X, flux and error
interpolated independently with fill value 0, then the constructor is
applied with the receiver's name, medium and units. -/
def Spectrum.interp_wave (S : Spectrum) (X : List ℝ) : Option Spectrum :=
  Spectrum.init X (X.map (fun t => interp1d_zero S.x S.y t))
    (X.map (fun t => interp1d_zero S.x S.e t))
    S.name S.wave S.x_unit S.y_unit

/-- Embedding of Spectrum.interp_wave with a Spectrum target: the source
additionally asserts equal wavelength media and uses the target's x array. -/
def Spectrum.interp_waveS (S X : Spectrum) : Option Spectrum :=
  if S.wave = X.wave then S.interp_wave X.x else none

open Classical in
/-- Embedding of Spectrum.scale_model_to_model: asserts equal x and y units,
resamples the receiver (the model) onto the argument's grid, computes
A_sm = sum(S.y*M.y) and A_mm = sum(M.y) -- the source sums the first power
of the resampled model in the denominator -- and returns the receiver scaled
by A = A_sm/A_mm together with the scale factor (the return_scaling_factor
flag only selects whether A is also returned). -/
def Spectrum.scale_model_to_model (self other : Spectrum) :
    Option (Spectrum × ℝ) :=
  if self.x_unit = other.x_unit ∧ self.y_unit = other.y_unit then
    match Spectrum.interp_waveS self other with
    | none => none
    | some M =>
      let A := (List.zipWith (fun a b => a * b) other.y M.y).sum / M.y.sum
      (self.mulScalar A).map (fun R => (R, A))
  else none

/-- Embedding of numpy boolean-mask indexing a[mask]: keep the entries whose
mask value is true. -/
def applyMask {α : Type} (m : List Bool) (l : List α) : List α :=
  ((l.zip m).filter (fun p => p.2)).map (fun p => p.1)

/-- Embedding of Spectrum.sect: the truth array (x > x0) & (x < x1).  The
bounds are extended reals so that the infinities used by split are exact. -/
def Spectrum.sect (S : Spectrum) (x0 x1 : EReal) : List Bool :=
  S.x.map (fun a : ℝ => decide ((x0 < (a : EReal)) ∧ ((a : EReal) < x1)))

/-- Embedding of Spectrum.__getitem__ with a boolean mask: all three arrays
are filtered by the mask and the constructor is reapplied with the same
name, medium and units. -/
def Spectrum.getmask (S : Spectrum) (m : List Bool) : Option Spectrum :=
  Spectrum.init (applyMask m S.x) (applyMask m S.y) (applyMask m S.e)
    S.name S.wave S.x_unit S.y_unit

/-- Embedding of Spectrum.clip: index by the sect truth array. -/
def Spectrum.clip (S : Spectrum) (x0 x1 : EReal) : Option Spectrum :=
  S.getmask (S.sect x0 x1)

/-- Embedding of the int/float branch of Spectrum.split: the bounds tuple is
(-inf, W, inf) and the result is the pair of clips over consecutive pairs. -/
def Spectrum.split (S : Spectrum) (w : ℝ) : Option Spectrum × Option Spectrum :=
  (S.clip ⊥ (w : EReal), S.clip (w : EReal) ⊤)

/-- Embedding of Spectrum.join / join_spectra on two spectra with the
default sort=False: asserts that medium and both units agree with the first
spectrum, concatenates the three arrays and applies the constructor with the
first spectrum's name, medium and units. -/
def Spectrum.join (s o : Spectrum) : Option Spectrum :=
  if o.wave = s.wave ∧ o.x_unit = s.x_unit ∧ o.y_unit = s.y_unit then
    Spectrum.init (s.x ++ o.x) (s.y ++ o.y) (s.e ++ o.e)
      s.name s.wave s.x_unit s.y_unit
  else none

/-- Attribute names defined on the Spectrum class in the source: the
__slots__ entries followed by the properties and methods of the class body. -/
def spectrumAttrs : List String :=
  ["name", "head", "x", "y", "e", "wave", "x_unit", "y_unit",
   "__init__", "var", "ivar", "SN", "__len__", "__repr__", "__getitem__",
   "__iter__", "__add__", "__sub__", "__mul__", "__truediv__", "__pow__",
   "__radd__", "__rsub__", "__rmul__", "__rtruediv__", "__neg__", "__pos__",
   "__abs__", "apply_mask", "mag_calc_AB", "interp_wave", "copy", "sect",
   "clip", "norm_percentile", "write", "air_to_vac", "vac_to_air", "redden",
   "x_unit_to", "y_unit_to", "apply_redshift", "scale_model",
   "scale_model_to_model", "convolve_gaussian", "convolve_gaussian_R",
   "split", "join", "closest_wave", "plot"]

/-- Embedding of the new_unit == "mag" branch of Spectrum.y_unit_to.  The
source executes self.to_y_unit("Jy"): an attribute lookup on the Spectrum
class, which raises AttributeError because no such attribute is defined (the
method is named y_unit_to).  The Jansky conversion and division by 3631 that
the branch intends (and that the spec describes) sit behind that lookup and
are never reached, so the unreachable arm is left as a placeholder. -/
def Spectrum.y_unit_to_mag (S : Spectrum) : Except String Spectrum :=
  if spectrumAttrs.contains "to_y_unit" then
    Except.ok S
  else
    Except.error "AttributeError: Spectrum object has no attribute to_y_unit"

/-- Embedding of the module function vac_to_air (VALD3 dispersion formula). -/
def vac_to_air (Wvac : ℝ) : ℝ :=
  let s := 1e4 / Wvac
  Wvac / (1.0000834254 + 0.02406147 / (130 - s * s)
    + 0.00015998 / (38.9 - s * s))

/-- Embedding of the module function air_to_vac (VALD3 dispersion formula). -/
def air_to_vac (Wair : ℝ) : ℝ :=
  let s := 1e4 / Wair
  Wair * (1.00008336624212083 + 0.02408926869968 / (130.1065924522 - s * s)
    + 0.0001599740894897 / (38.92568793293 - s * s))

/-- Embedding of Spectrum.apply_redshift.  The source converts the velocity
to a fraction beta of the speed of light through astropy (modelled by taking
beta directly), asserts the medium is vac or air, and multiplies the
wavelength array by sqrt((1+beta)/(1-beta)), round-tripping air wavelengths
through vacuum; only the x field is written. -/
def Spectrum.apply_redshift (S : Spectrum) (beta : ℝ) : Option Spectrum :=
  if S.wave = "vac" ∨ S.wave = "air" then
    let factor := Real.sqrt ((1 + beta) / (1 - beta))
    if S.wave = "air" then
      some { S with x := ((S.x.map air_to_vac).map (fun a => a * factor)).map vac_to_air }
    else
      some { S with x := S.x.map (fun a => a * factor) }
  else none

/-- Embedding of the helper next_pow_2 inside convolve_gaussian: the source
doubles an accumulator from 1 while it is below N_in, producing the least
power of two that is at least N_in (and at least 1). -/
def next_pow_2 (N_in : ℕ) : ℕ := 2 ^ Nat.clog 2 N_in

/-- Embedding of np.linspace(a, b, n): n evenly spaced points from a to b
inclusive. -/
def linspace (a b : ℝ) (n : ℕ) : List ℝ :=
  (List.range n).map (fun i => a + (b - a) * i / ((n : ℝ) - 1))

/-- Embedding of np.fft.fft as the discrete Fourier transform. -/
def fft (a : List ℂ) : List ℂ :=
  (List.range a.length).map (fun k =>
    ((List.range a.length).map (fun j =>
      a.getD j 0 * Complex.exp (-(2 * Real.pi * Complex.I * j * k / a.length)))).sum)

/-- Embedding of np.fft.ifft as the inverse discrete Fourier transform. -/
def ifft (a : List ℂ) : List ℂ :=
  (List.range a.length).map (fun k =>
    ((List.range a.length).map (fun j =>
      a.getD j 0 * Complex.exp (2 * Real.pi * Complex.I * j * k / a.length))).sum
      / a.length)

/-- Embedding of the module function convolve_gaussian: oversample onto a
uniform grid of power-of-two length, build the mirrored half-Gaussian kernel
normalised to unit sum, multiply the forward transforms, inverse-transform,
take real parts, and interpolate back onto the original abscissae. -/
def convolve_gaussian (x y : List ℝ) (FWHM : ℝ) : List ℝ :=
  let sigma := FWHM / 2.355
  let x0 := x.head?.getD 0
  let xlast := x.getLast?.getD 0
  let xi := linspace x0 xlast (next_pow_2 (10 * x.length))
  let yi := xi.map (fun t => interp_pts (x.zip y) t)
  let yg0 := xi.map (fun t => Real.exp (-0.5 * ((t - x0) / sigma) ^ 2))
  let yg1 := List.zipWith (fun a b => a + b) yg0 yg0.reverse
  let yg := yg1.map (fun a => a / yg1.sum)
  let yiF := fft (yi.map (fun r => (r : ℂ)))
  let ygF := fft (yg.map (fun r => (r : ℂ)))
  let yic := (ifft (List.zipWith (fun a b => a * b) yiF ygF)).map Complex.re
  x.map (fun t => interp_pts (xi.zip yic) t)

/-- Embedding of the module function convolve_gaussian_R: the same routine
on log-wavelengths with FWHM 1/R. -/
def convolve_gaussian_R (x y : List ℝ) (R : ℝ) : List ℝ :=
  convolve_gaussian (x.map Real.log) y (1 / R)

/-! Helper lemmas about the constructor and list operations. -/

theorem init_eq_some {x y e : List ℝ} {n w xu yu : String} {S : Spectrum}
    (h : Spectrum.init x y e n w xu yu = some S) :
    (x.length = y.length ∧ y.length = e.length ∧ ∀ a ∈ e, 0 ≤ a) ∧
      S = ⟨n, w, xu, yu, x, y, e, []⟩ := by
  unfold Spectrum.init at h
  split at h
  case isTrue hc => exact ⟨hc, (Option.some_injective _ h).symm⟩
  case isFalse => exact absurd h (by simp)

theorem init_eq_some_of {x y e : List ℝ} (n w xu yu : String)
    (hx : x.length = y.length) (hy : y.length = e.length)
    (he : ∀ a ∈ e, 0 ≤ a) :
    Spectrum.init x y e n w xu yu = some ⟨n, w, xu, yu, x, y, e, []⟩ := by
  unfold Spectrum.init
  rw [if_pos ⟨hx, hy, he⟩]

theorem mem_zipWith_sqrt {l1 l2 : List ℝ} {a : ℝ}
    (h : a ∈ List.zipWith (fun a b => Real.sqrt (a ^ 2 + b ^ 2)) l1 l2) :
    0 ≤ a := by
  obtain ⟨i, hi, hy⟩ := List.mem_iff_getElem.mp h
  rw [List.getElem_zipWith] at hy
  exact hy ▸ Real.sqrt_nonneg _

theorem init_isSome {x y e : List ℝ} (n w xu yu : String)
    (hx : x.length = y.length) (hy : y.length = e.length)
    (he : ∀ a ∈ e, 0 ≤ a) :
    (Spectrum.init x y e n w xu yu).isSome = true := by
  rw [init_eq_some_of n w xu yu hx hy he]
  rfl

theorem mem_zipWith_abs_sqrt {l l1 l2 : List ℝ} {a : ℝ}
    (h : a ∈ List.zipWith (fun a b => |a| * b) l
      (List.zipWith (fun a b => Real.sqrt (a ^ 2 + b ^ 2)) l1 l2)) :
    0 ≤ a := by
  obtain ⟨i, hi, hy⟩ := List.mem_iff_getElem.mp h
  rw [List.getElem_zipWith, List.getElem_zipWith] at hy
  exact hy ▸ mul_nonneg (abs_nonneg _) (Real.sqrt_nonneg _)

/-! Theorems for the claims. -/

/-- C9: a Spectrum built by the constructor satisfies the invariant that the
wavelength, flux and error arrays share one length and every error value is
non-negative; conversely the constructor returns none (the assert fires)
whenever the error array contains a negative value, so an operation whose
computed error array would contain a negative value fails rather than
returning such a spectrum (every operation above builds its result through
Spectrum.init). -/
theorem init_invariant (x y e : List ℝ) (n w xu yu : String) :
    (∀ S : Spectrum, Spectrum.init x y e n w xu yu = some S → S.valid) ∧
    ((∃ a ∈ e, a < 0) → Spectrum.init x y e n w xu yu = none) := by
  constructor
  · intro S h
    obtain ⟨⟨h1, h2, h3⟩, rfl⟩ := init_eq_some h
    exact ⟨h1, h2, h3⟩
  · rintro ⟨a, ha, hneg⟩
    unfold Spectrum.init
    rw [if_neg]
    rintro ⟨-, -, h3⟩
    exact absurd (h3 a ha) (not_le.mpr hneg)

/-- Witness for C9 at a concrete input: the constructor applied to arrays
[1], [2], [0] succeeds and its output satisfies the invariant. -/
theorem init_invariant_witness :
    (Spectrum.mk "" "air" "AA" "Jy" [1] [2] [0] []).valid := by
  refine (init_invariant [1] [2] [0] "" "air" "AA" "Jy").1 _ ?_
  exact init_eq_some_of _ _ _ _ rfl rfl (by intro a ha; simp at ha; simp [ha])

/-- C1: for spectra satisfying the combination preconditions (equal length,
elementwise-close wavelengths, equal x and y units), addition returns a new
spectrum whose flux is y1+y2 pointwise, whose error is sqrt(e1^2+e2^2)
pointwise, and whose wavelength array is 0.5*(x1+x2) pointwise. -/
theorem add_combines_pointwise (S1 S2 : Spectrum)
    (hv1 : S1.valid) (hv2 : S2.valid)
    (hlen : S1.x.length = S2.x.length)
    (hclose : iscloseAll S1.x S2.x)
    (hxu : S1.x_unit = S2.x_unit) (hyu : S1.y_unit = S2.y_unit) :
    ∃ S3, S1.add S2 = some S3 ∧
      S3.x = List.zipWith (fun a b => 0.5 * (a + b)) S1.x S2.x ∧
      S3.y = List.zipWith (fun a b => a + b) S1.y S2.y ∧
      S3.e = List.zipWith (fun a b => Real.sqrt (a ^ 2 + b ^ 2)) S1.e S2.e := by
  obtain ⟨h1x, h1y, -⟩ := hv1
  obtain ⟨h2x, h2y, -⟩ := hv2
  refine ⟨⟨S1.name, S1.wave, S1.x_unit, S1.y_unit,
    List.zipWith (fun a b => 0.5 * (a + b)) S1.x S2.x,
    List.zipWith (fun a b => a + b) S1.y S2.y,
    List.zipWith (fun a b => Real.sqrt (a ^ 2 + b ^ 2)) S1.e S2.e, []⟩,
    ?_, rfl, rfl, rfl⟩
  unfold Spectrum.add
  rw [if_pos ⟨hlen, hclose, hxu, hyu⟩]
  apply init_eq_some_of
  · simp only [List.length_zipWith]
    omega
  · simp only [List.length_zipWith]
    omega
  · intro a ha
    exact mem_zipWith_sqrt ha

/-- Witness for C1 at a concrete input: adding two one-pixel spectra with
errors 3 and 4 gives error sqrt(3^2+4^2). -/
theorem add_combines_pointwise_witness :
    ∃ S3, (Spectrum.mk "" "air" "AA" "Jy" [2] [3] [3] []).add
      (Spectrum.mk "" "air" "AA" "Jy" [2] [1] [4] []) = some S3 ∧
      S3.y = [3 + 1] ∧ S3.e = [Real.sqrt (3 ^ 2 + 4 ^ 2)] := by
  obtain ⟨S3, hsome, -, hy, he⟩ :=
    add_combines_pointwise (Spectrum.mk "" "air" "AA" "Jy" [2] [3] [3] [])
      (Spectrum.mk "" "air" "AA" "Jy" [2] [1] [4] [])
      ⟨rfl, rfl, by intro a ha; simp at ha; simp [ha]⟩
      ⟨rfl, rfl, by intro a ha; simp at ha; simp [ha]⟩
      rfl
      (List.Forall₂.cons (by unfold isclose; norm_num) List.Forall₂.nil)
      rfl rfl
  exact ⟨S3, hsome, by rw [hy]; rfl, by rw [he]; rfl⟩

/-- C3: converting the flux unit to "mag" does not divide a Jansky-converted
spectrum by the reference constant 3631; the branch executes
self.to_y_unit("Jy"), an attribute that the Spectrum class never defines
(the conversion method is named y_unit_to), so the call raises
AttributeError for every spectrum. -/
theorem y_unit_to_mag_attribute_error :
    (Spectrum.mk "" "air" "AA" "Jy" [1] [1] [0] []).y_unit_to_mag =
      Except.error "AttributeError: Spectrum object has no attribute to_y_unit" ∧
    spectrumAttrs.contains "to_y_unit" = false ∧
    spectrumAttrs.contains "y_unit_to" = true := by
  refine ⟨?_, rfl, rfl⟩
  unfold Spectrum.y_unit_to_mag
  rfl

/-- C4: the reflected division k/S with a negative scalar does not return a
spectrum with error |k|*e/y^2; the source computes k*e/y^2 without an
absolute value, so for k = -2 on a one-pixel spectrum with unit flux and
unit error the computed error is -2 and the constructor assert
np.all(e >= 0) fires (modelled as none). -/
theorem rtruediv_negative_scalar_asserts :
    Spectrum.rtruediv (-2) (Spectrum.mk "" "air" "AA" "Jy" [1] [1] [1] []) = none := by
  unfold Spectrum.rtruediv Spectrum.init
  rw [if_neg]
  rintro ⟨-, -, h⟩
  have := h ((-2) * 1 / (1 * 1)) (List.mem_singleton_self _)
  norm_num at this

/-- Counterexample for C5: spectrum-spectrum multiplication with differing
flux units is performed, not rejected; the source compares only the
wavelength units for mul and combines the two flux units into the product
unit. -/
theorem mul_differing_flux_units_performed :
    ((Spectrum.mk "" "air" "AA" "erg" [1] [1] [0] []).mul
      (Spectrum.mk "" "air" "AA" "Jy" [1] [1] [0] [])).isSome = true ∧
    ("erg" : String) ≠ "Jy" := by
  constructor
  · unfold Spectrum.mul
    rw [if_pos ⟨rfl,
      List.Forall₂.cons (by unfold isclose; norm_num) List.Forall₂.nil, rfl⟩]
    exact init_isSome _ _ _ _ rfl rfl (fun a ha => mem_zipWith_abs_sqrt ha)
  · intro h
    simp at h

/-- C5 (amended): addition and subtraction succeed only when the operands
have equal length, elementwise-close wavelength arrays, equal wavelength
units and equal flux units; multiplication and division succeed only under
the first three conditions, and do not require equal flux units (the result
unit is the product or quotient of the operand units). -/
theorem binary_ops_preconditions (S1 S2 : Spectrum) :
    ((S1.add S2).isSome → S1.x.length = S2.x.length ∧ iscloseAll S1.x S2.x ∧
      S1.x_unit = S2.x_unit ∧ S1.y_unit = S2.y_unit) ∧
    ((S1.sub S2).isSome → S1.x.length = S2.x.length ∧ iscloseAll S1.x S2.x ∧
      S1.x_unit = S2.x_unit ∧ S1.y_unit = S2.y_unit) ∧
    ((S1.mul S2).isSome → S1.x.length = S2.x.length ∧ iscloseAll S1.x S2.x ∧
      S1.x_unit = S2.x_unit) ∧
    ((S1.div S2).isSome → S1.x.length = S2.x.length ∧ iscloseAll S1.x S2.x ∧
      S1.x_unit = S2.x_unit) := by
  refine ⟨fun h => ?_, fun h => ?_, fun h => ?_, fun h => ?_⟩
  · unfold Spectrum.add at h
    by_contra hc
    rw [if_neg hc] at h
    simp at h
  · unfold Spectrum.sub at h
    by_contra hc
    rw [if_neg hc] at h
    simp at h
  · unfold Spectrum.mul at h
    by_contra hc
    rw [if_neg hc] at h
    simp at h
  · unfold Spectrum.div at h
    by_contra hc
    rw [if_neg hc] at h
    simp at h

/-- Witness for C5 at a concrete input: a successful addition implies the
wavelength arrays were elementwise close. -/
theorem binary_ops_preconditions_witness : iscloseAll [(1 : ℝ)] [(1 : ℝ)] := by
  refine ((binary_ops_preconditions (Spectrum.mk "" "air" "AA" "Jy" [1] [1] [0] [])
    (Spectrum.mk "" "air" "AA" "Jy" [1] [1] [0] [])).1 ?_).2.1
  unfold Spectrum.add
  rw [if_pos ⟨rfl,
    List.Forall₂.cons (by unfold isclose; norm_num) List.Forall₂.nil, rfl, rfl⟩]
  exact init_isSome _ _ _ _ rfl rfl (fun a ha => mem_zipWith_sqrt ha)

/-- C6: the fixed-resolving-power convolution convolve_gaussian_R(x, y, R)
is exactly the fixed-FWHM routine convolve_gaussian applied to log(x) with
FWHM 1/R, for every wavelength array, flux array and resolving power. -/
theorem convolve_gaussian_R_is_log_convolve (x y : List ℝ) (R : ℝ) :
    convolve_gaussian_R x y R = convolve_gaussian (x.map Real.log) y (1 / R) :=
  rfl

/-- C10: for a spectrum whose medium is air or vac and any velocity fraction
beta with |beta| < 1, apply_redshift succeeds and changes only the
wavelength array; flux, error, name, units, medium tag and header are
unchanged. -/
theorem apply_redshift_only_wavelengths (S : Spectrum) (beta : ℝ)
    (hw : S.wave = "air" ∨ S.wave = "vac") (hb : |beta| < 1) :
    ∃ T, S.apply_redshift beta = some T ∧ T.y = S.y ∧ T.e = S.e ∧
      T.name = S.name ∧ T.x_unit = S.x_unit ∧ T.y_unit = S.y_unit ∧
      T.wave = S.wave ∧ T.head = S.head := by
  clear hb
  unfold Spectrum.apply_redshift
  rcases hw with h | h
  · rw [if_pos (Or.inr h), if_pos h]
    exact ⟨_, rfl, rfl, rfl, rfl, rfl, rfl, rfl, rfl⟩
  · rw [if_pos (Or.inl h), if_neg (by rw [h]; intro hc; exact absurd hc (by decide))]
    exact ⟨_, rfl, rfl, rfl, rfl, rfl, rfl, rfl, rfl⟩

/-- Witness for C10 at a concrete input: redshifting a vacuum-wavelength
spectrum by beta = 0.5 leaves flux, error and medium unchanged. -/
theorem apply_redshift_only_wavelengths_witness :
    ∃ T, (Spectrum.mk "n" "vac" "AA" "Jy" [1] [2] [3] []).apply_redshift 0.5 =
      some T ∧ T.y = [2] ∧ T.e = [3] ∧ T.wave = "vac" := by
  obtain ⟨T, h1, h2, h3, -, -, -, h7, -⟩ :=
    apply_redshift_only_wavelengths (Spectrum.mk "n" "vac" "AA" "Jy" [1] [2] [3] [])
      0.5 (Or.inr rfl) (by rw [abs_of_pos] <;> norm_num)
  exact ⟨T, h1, h2, h3, h7⟩

/-- C7: interp_wave with the default linear kind interpolates flux and error
independently (with the same kernel applied to each array), and every
target point lying outside the closed interval spanned by the source
wavelengths receives flux 0 and error 0 rather than an extrapolated value. -/
theorem interp_wave_linear_outside_zero (S : Spectrum) (X : List ℝ)
    (hne : S.x ≠ []) (R : Spectrum) (hR : S.interp_wave X = some R) :
    R.x = X ∧ R.y = X.map (fun t => interp1d_zero S.x S.y t) ∧
      R.e = X.map (fun t => interp1d_zero S.x S.e t) ∧
      ∀ t ∈ X, ((∀ u ∈ S.x, t < u) ∨ (∀ u ∈ S.x, u < t)) →
        interp1d_zero S.x S.y t = 0 ∧ interp1d_zero S.x S.e t = 0 := by
  unfold Spectrum.interp_wave at hR
  obtain ⟨-, rfl⟩ := init_eq_some hR
  refine ⟨rfl, rfl, rfl, ?_⟩
  intro t ht hout
  have hzero : ∀ ys : List ℝ, interp1d_zero S.x ys t = 0 := by
    intro ys
    unfold interp1d_zero
    rcases hout with h | h
    · have hc : t < S.x.head?.getD 0 := by
        rw [List.head?_eq_head hne]
        exact h _ (List.head_mem hne)
      rw [if_pos (Or.inl hc)]
    · have hc : S.x.getLast?.getD 0 < t := by
        rw [List.getLast?_eq_getLast_of_ne_nil hne]
        exact h _ (List.getLast_mem hne)
      rw [if_pos (Or.inr hc)]
  exact ⟨hzero S.y, hzero S.e⟩

/-- Witness for C7 at a concrete input: resampling the two-pixel spectrum on
wavelengths [1, 2] onto the out-of-range target [0] fills flux and error
with zero. -/
theorem interp_wave_linear_outside_zero_witness :
    interp1d_zero [1, 2] [5, 6] 0 = 0 ∧ interp1d_zero [1, 2] [0, 0] 0 = 0 := by
  have he0 : ∀ a : ℝ, a ∈ ([0] : List ℝ).map
      (fun t => interp1d_zero [1, 2] [0, 0] t) → 0 ≤ a := by
    intro a ha
    simp only [List.map, List.mem_singleton] at ha
    subst ha
    unfold interp1d_zero
    rw [if_pos (Or.inl (by norm_num))]
  have hR : (Spectrum.mk "" "air" "AA" "Jy" [1, 2] [5, 6] [0, 0] []).interp_wave [0] =
      some ⟨"", "air", "AA", "Jy", [0],
        ([0] : List ℝ).map (fun t => interp1d_zero [1, 2] [5, 6] t),
        ([0] : List ℝ).map (fun t => interp1d_zero [1, 2] [0, 0] t), []⟩ := by
    unfold Spectrum.interp_wave
    exact init_eq_some_of _ _ _ _ rfl rfl he0
  have h := (interp_wave_linear_outside_zero
    (Spectrum.mk "" "air" "AA" "Jy" [1, 2] [5, 6] [0, 0] []) [0] (by simp) _ hR).2.2.2
  have hout : ∀ u ∈ ([1, 2] : List ℝ), (0 : ℝ) < u := by
    intro u hu
    rcases List.mem_cons.mp hu with h1 | h1
    · rw [h1]; norm_num
    · rw [List.mem_singleton.mp h1]; norm_num
  exact h 0 (List.mem_singleton_self 0) (Or.inl hout)

/-! Helper lemmas evaluating the linear interpolation on two-point grids,
used for the scale_model_to_model claim. -/

theorem interp1d_zero_pair {x1 x2 y1 y2 t : ℝ} (h0 : x1 ≤ t) (h2 : t ≤ x2) :
    interp1d_zero [x1, x2] [y1, y2] t =
      y1 + (y2 - y1) * (t - x1) / (x2 - x1) := by
  unfold interp1d_zero
  rw [if_neg (by push_neg; exact ⟨h0, h2⟩)]
  show interp_pts [(x1, y1), (x2, y2)] t = _
  unfold interp_pts
  rw [if_pos h2]

/-- Concrete model spectrum for the scale_model_to_model claim: flux 2 on
the grid [0, 1], no errors. -/
def modelC2 : Spectrum := ⟨"m", "air", "AA", "Jy", [0, 1], [2, 2], [0, 0], []⟩

/-- Concrete data spectrum for the scale_model_to_model claim: flux 4 on
the same grid, no errors. -/
def dataC2 : Spectrum := ⟨"s", "air", "AA", "Jy", [0, 1], [4, 4], [0, 0], []⟩

theorem interpC2 : modelC2.interp_waveS dataC2 = some modelC2 := by
  unfold Spectrum.interp_waveS
  rw [if_pos (show modelC2.wave = dataC2.wave from rfl)]
  unfold Spectrum.interp_wave
  have hy : ([0, 1] : List ℝ).map (fun t => interp1d_zero [0, 1] [2, 2] t)
      = [2, 2] := by
    have i0 : interp1d_zero [0, 1] [2, 2] 0 = 2 := by
      rw [interp1d_zero_pair le_rfl (by norm_num : (0 : ℝ) ≤ 1)]
      norm_num
    have i1 : interp1d_zero [0, 1] [2, 2] 1 = 2 := by
      rw [interp1d_zero_pair (by norm_num : (0 : ℝ) ≤ 1) le_rfl]
      norm_num
    simp only [List.map_cons, List.map_nil, i0, i1]
  have he : ([0, 1] : List ℝ).map (fun t => interp1d_zero [0, 1] [0, 0] t)
      = [0, 0] := by
    have i0 : interp1d_zero [0, 1] [0, 0] 0 = 0 := by
      rw [interp1d_zero_pair le_rfl (by norm_num : (0 : ℝ) ≤ 1)]
      norm_num
    have i1 : interp1d_zero [0, 1] [0, 0] 1 = 0 := by
      rw [interp1d_zero_pair (by norm_num : (0 : ℝ) ≤ 1) le_rfl]
      norm_num
    simp only [List.map_cons, List.map_nil, i0, i1]
  show Spectrum.init [0, 1]
    (([0, 1] : List ℝ).map (fun t => interp1d_zero [0, 1] [2, 2] t))
    (([0, 1] : List ℝ).map (fun t => interp1d_zero [0, 1] [0, 0] t))
    "m" "air" "AA" "Jy" = some modelC2
  rw [hy, he]
  exact init_eq_some_of _ _ _ _ rfl rfl
    (by intro a ha; rcases List.mem_cons.mp ha with h | h
        · rw [h]
        · rw [List.mem_singleton.mp h])

theorem scaleC2 : modelC2.scale_model_to_model dataC2 =
    some (⟨"m", "air", "AA", "Jy", [0, 1], [8, 8], [0, 0], []⟩, 4) := by
  unfold Spectrum.scale_model_to_model
  rw [if_pos ⟨rfl, rfl⟩]
  simp only [interpC2]
  have hA : (List.zipWith (fun a b => a * b) dataC2.y modelC2.y).sum /
      modelC2.y.sum = 4 := by
    show (List.zipWith (fun a b => a * b) ([4, 4] : List ℝ) [2, 2]).sum /
      ([2, 2] : List ℝ).sum = 4
    norm_num
  rw [hA]
  unfold Spectrum.mulScalar
  have hy4 : modelC2.y.map (fun a => a * 4) = [8, 8] := by
    show ([2, 2] : List ℝ).map (fun a => a * 4) = [8, 8]
    norm_num
  have he4 : modelC2.e.map (fun a => a * |(4 : ℝ)|) = [0, 0] := by
    show ([0, 0] : List ℝ).map (fun a => a * |(4 : ℝ)|) = [0, 0]
    norm_num
  rw [hy4, he4]
  have hinit := @init_eq_some_of modelC2.x [8, 8] [0, 0]
    modelC2.name modelC2.wave modelC2.x_unit modelC2.y_unit rfl rfl
    (by intro a ha; rcases List.mem_cons.mp ha with h | h
        · rw [h]
        · rw [List.mem_singleton.mp h])
  rw [hinit]
  rfl

/-- Counterexample for C2: the code scales the model of flux [2, 2] to the
data of flux [4, 4] by the factor 4 = 16/4, whose denominator is the sum of
the resampled model flux; the claimed formula sum(data*model)/sum(model^2)
evaluates to 2 = 16/8 at the same input, so the claim as stated is false. -/
theorem scale_model_to_model_denominator_ctr :
    modelC2.scale_model_to_model dataC2 =
      some (⟨"m", "air", "AA", "Jy", [0, 1], [8, 8], [0, 0], []⟩, 4) ∧
    (List.zipWith (fun a b => a * b) dataC2.y modelC2.y).sum /
      (modelC2.y.map (fun a => a ^ 2)).sum = 2 ∧
    (2 : ℝ) ≠ 4 := by
  refine ⟨scaleC2, ?_, by norm_num⟩
  show (List.zipWith (fun a b => a * b) ([4, 4] : List ℝ) [2, 2]).sum /
    (([2, 2] : List ℝ).map (fun a => a ^ 2)).sum = 2
  norm_num

/-- C2 (amended): scale_model_to_model asserts equal x and y units, computes
the scale factor A = sum(S.y*M.y)/sum(M.y) where M is the model resampled
onto the argument grid -- the denominator is the sum of the first power of
the resampled model flux, not of its square -- and returns the model scaled
by A together with A. -/
theorem scale_model_to_model_formula (M S Mi : Spectrum)
    (hMi : M.interp_waveS S = some Mi)
    (R : Spectrum) (A : ℝ) (hR : M.scale_model_to_model S = some (R, A)) :
    M.x_unit = S.x_unit ∧ M.y_unit = S.y_unit ∧
    A = (List.zipWith (fun a b => a * b) S.y Mi.y).sum / Mi.y.sum ∧
    R.x = M.x ∧ R.y = M.y.map (fun a => a * A) ∧
    R.e = M.e.map (fun a => a * |A|) := by
  unfold Spectrum.scale_model_to_model at hR
  split at hR
  case isFalse => exact absurd hR (by simp)
  case isTrue hu =>
    rw [hMi] at hR
    simp only [Option.map_eq_some'] at hR
    obtain ⟨R0, hR0, hpair⟩ := hR
    injection hpair with hfst hsnd
    subst hfst
    subst hsnd
    unfold Spectrum.mulScalar at hR0
    obtain ⟨-, rfl⟩ := init_eq_some hR0
    exact ⟨hu.1, hu.2, rfl, rfl, rfl, rfl⟩

/-- Witness for C2 at a concrete input: the scale factor returned for the
model [2, 2] against the data [4, 4] equals sum(data*model)/sum(model). -/
theorem scale_model_to_model_formula_witness :
    (4 : ℝ) = (List.zipWith (fun a b => a * b) dataC2.y modelC2.y).sum /
      modelC2.y.sum := by
  obtain ⟨-, -, hA, -, -, -⟩ :=
    scale_model_to_model_formula modelC2 dataC2 modelC2 interpC2
      ⟨"m", "air", "AA", "Jy", [0, 1], [8, 8], [0, 0], []⟩ 4 scaleC2
  exact hA

/-! Helper lemmas about boolean-mask selection, used for join/split. -/

theorem applyMask_append {α : Type} (m1 m2 : List Bool) (l1 l2 : List α)
    (h : l1.length = m1.length) :
    applyMask (m1 ++ m2) (l1 ++ l2) = applyMask m1 l1 ++ applyMask m2 l2 := by
  unfold applyMask
  rw [List.zip_append h, List.filter_append, List.map_append]

theorem applyMask_true {α : Type} (m : List Bool) (l : List α)
    (hm : ∀ b ∈ m, b = true) (h : m.length = l.length) :
    applyMask m l = l := by
  induction m generalizing l with
  | nil =>
    cases l with
    | nil => rfl
    | cons a l => exact absurd h (by simp)
  | cons b m ih =>
    cases l with
    | nil => exact absurd h (by simp)
    | cons a l =>
      have hb : ((a, b).2 : Bool) = true := hm b (List.mem_cons_self b m)
      unfold applyMask
      rw [List.zip_cons_cons, List.filter_cons_of_pos hb, List.map_cons]
      have ht : applyMask m l = l :=
        ih l (fun c hc => hm c (List.mem_cons_of_mem b hc)) (by simpa using h)
      exact congrArg (a :: ·) ht

theorem applyMask_false {α : Type} (m : List Bool) (l : List α)
    (hm : ∀ b ∈ m, b = false) : applyMask m l = [] := by
  induction m generalizing l with
  | nil => cases l <;> rfl
  | cons b m ih =>
    cases l with
    | nil => rfl
    | cons a l =>
      have hb : ¬(((a, b).2 : Bool) = true) := by
        rw [hm b (List.mem_cons_self b m)]
        simp
      unfold applyMask
      rw [List.zip_cons_cons, List.filter_cons_of_neg hb]
      exact ih l (fun c hc => hm c (List.mem_cons_of_mem b hc))

theorem clip_append_left (n w0 xu yu : String)
    (x1L x2L y1L y2L e1L e2L : List ℝ) (x0 x1 : EReal)
    (hxy : x1L.length = y1L.length) (hye : y1L.length = e1L.length)
    (he1 : ∀ a ∈ e1L, 0 ≤ a)
    (htrue : ∀ a ∈ x1L, x0 < (a : EReal) ∧ (a : EReal) < x1)
    (hfalse : ∀ a ∈ x2L, ¬(x0 < (a : EReal) ∧ (a : EReal) < x1)) :
    Spectrum.clip ⟨n, w0, xu, yu, x1L ++ x2L, y1L ++ y2L, e1L ++ e2L, []⟩ x0 x1
      = some ⟨n, w0, xu, yu, x1L, y1L, e1L, []⟩ := by
  simp only [Spectrum.clip, Spectrum.getmask, Spectrum.sect]
  rw [List.map_append]
  have hm1t : ∀ b ∈ x1L.map
      (fun a : ℝ => decide (x0 < (a : EReal) ∧ (a : EReal) < x1)), b = true := by
    intro b hb
    obtain ⟨a, ha, rfl⟩ := List.mem_map.mp hb
    exact decide_eq_true (htrue a ha)
  have hm2f : ∀ b ∈ x2L.map
      (fun a : ℝ => decide (x0 < (a : EReal) ∧ (a : EReal) < x1)), b = false := by
    intro b hb
    obtain ⟨a, ha, rfl⟩ := List.mem_map.mp hb
    exact decide_eq_false (hfalse a ha)
  rw [applyMask_append _ _ _ _ (List.length_map x1L _).symm,
    applyMask_append _ _ _ _ (by rw [List.length_map]; exact hxy.symm),
    applyMask_append _ _ _ _ (by rw [List.length_map]; omega)]
  rw [applyMask_true _ _ hm1t (List.length_map x1L _),
    applyMask_true _ _ hm1t (by rw [List.length_map]; exact hxy),
    applyMask_true _ _ hm1t (by rw [List.length_map]; omega)]
  rw [applyMask_false _ _ hm2f, applyMask_false _ _ hm2f,
    applyMask_false _ _ hm2f, List.append_nil, List.append_nil, List.append_nil]
  exact init_eq_some_of n w0 xu yu hxy hye he1

theorem clip_append_right (n w0 xu yu : String)
    (x1L x2L y1L y2L e1L e2L : List ℝ) (x0 x1 : EReal)
    (hxy1 : x1L.length = y1L.length) (hye1 : y1L.length = e1L.length)
    (hxy2 : x2L.length = y2L.length) (hye2 : y2L.length = e2L.length)
    (he2 : ∀ a ∈ e2L, 0 ≤ a)
    (hfalse : ∀ a ∈ x1L, ¬(x0 < (a : EReal) ∧ (a : EReal) < x1))
    (htrue : ∀ a ∈ x2L, x0 < (a : EReal) ∧ (a : EReal) < x1) :
    Spectrum.clip ⟨n, w0, xu, yu, x1L ++ x2L, y1L ++ y2L, e1L ++ e2L, []⟩ x0 x1
      = some ⟨n, w0, xu, yu, x2L, y2L, e2L, []⟩ := by
  simp only [Spectrum.clip, Spectrum.getmask, Spectrum.sect]
  rw [List.map_append]
  have hm1f : ∀ b ∈ x1L.map
      (fun a : ℝ => decide (x0 < (a : EReal) ∧ (a : EReal) < x1)), b = false := by
    intro b hb
    obtain ⟨a, ha, rfl⟩ := List.mem_map.mp hb
    exact decide_eq_false (hfalse a ha)
  have hm2t : ∀ b ∈ x2L.map
      (fun a : ℝ => decide (x0 < (a : EReal) ∧ (a : EReal) < x1)), b = true := by
    intro b hb
    obtain ⟨a, ha, rfl⟩ := List.mem_map.mp hb
    exact decide_eq_true (htrue a ha)
  rw [applyMask_append _ _ _ _ (List.length_map x1L _).symm,
    applyMask_append _ _ _ _ (by rw [List.length_map]; exact hxy1.symm),
    applyMask_append _ _ _ _ (by rw [List.length_map]; omega)]
  rw [applyMask_true _ _ hm2t (List.length_map x2L _),
    applyMask_true _ _ hm2t (by rw [List.length_map]; exact hxy2),
    applyMask_true _ _ hm2t (by rw [List.length_map]; omega)]
  rw [applyMask_false _ _ hm1f, applyMask_false _ _ hm1f,
    applyMask_false _ _ hm1f, List.nil_append, List.nil_append, List.nil_append]
  exact init_eq_some_of n w0 xu yu hxy2 hye2 he2

/-- C8: joining two spectra with equal medium and units whose wavelength
ranges lie strictly below and strictly above a boundary w, and then
splitting the join at w, reproduces the two original pieces: the two halves
have exactly the original wavelength, flux and error arrays. -/
theorem join_split_roundtrip (S1 S2 : Spectrum) (w : ℝ)
    (hv1 : S1.valid) (hv2 : S2.valid)
    (hw : S2.wave = S1.wave) (hxu : S2.x_unit = S1.x_unit)
    (hyu : S2.y_unit = S1.y_unit)
    (h1 : ∀ a ∈ S1.x, a < w) (h2 : ∀ b ∈ S2.x, w < b) :
    ∃ J P1 P2, S1.join S2 = some J ∧ J.split w = (some P1, some P2) ∧
      P1.x = S1.x ∧ P1.y = S1.y ∧ P1.e = S1.e ∧
      P2.x = S2.x ∧ P2.y = S2.y ∧ P2.e = S2.e := by
  obtain ⟨h1x, h1y, h1e⟩ := hv1
  obtain ⟨h2x, h2y, h2e⟩ := hv2
  have hJ : S1.join S2 = some ⟨S1.name, S1.wave, S1.x_unit, S1.y_unit,
      S1.x ++ S2.x, S1.y ++ S2.y, S1.e ++ S2.e, []⟩ := by
    unfold Spectrum.join
    rw [if_pos ⟨hw, hxu, hyu⟩]
    apply init_eq_some_of
    · simp only [List.length_append]
      omega
    · simp only [List.length_append]
      omega
    · intro a ha
      rcases List.mem_append.mp ha with h | h
      · exact h1e a h
      · exact h2e a h
  have hP1 := clip_append_left S1.name S1.wave S1.x_unit S1.y_unit
    S1.x S2.x S1.y S2.y S1.e S2.e ⊥ (w : EReal) h1x h1y h1e
    (fun a ha => ⟨EReal.bot_lt_coe a, EReal.coe_lt_coe_iff.mpr (h1 a ha)⟩)
    (fun a ha hc => absurd (EReal.coe_lt_coe_iff.mp hc.2)
      (not_lt.mpr (le_of_lt (h2 a ha))))
  have hP2 := clip_append_right S1.name S1.wave S1.x_unit S1.y_unit
    S1.x S2.x S1.y S2.y S1.e S2.e (w : EReal) ⊤ h1x h1y h2x h2y h2e
    (fun a ha hc => absurd (EReal.coe_lt_coe_iff.mp hc.1)
      (not_lt.mpr (le_of_lt (h1 a ha))))
    (fun a ha => ⟨EReal.coe_lt_coe_iff.mpr (h2 a ha), EReal.coe_lt_top a⟩)
  refine ⟨_, ⟨S1.name, S1.wave, S1.x_unit, S1.y_unit, S1.x, S1.y, S1.e, []⟩,
    ⟨S1.name, S1.wave, S1.x_unit, S1.y_unit, S2.x, S2.y, S2.e, []⟩,
    hJ, ?_, rfl, rfl, rfl, rfl, rfl, rfl⟩
  unfold Spectrum.split
  rw [hP1, hP2]

/-- Witness for C8 at a concrete input: joining the one-pixel spectra at
wavelengths 1 and 3 and splitting at 2 reproduces the two pixels. -/
theorem join_split_roundtrip_witness :
    ∃ J P1 P2, (Spectrum.mk "a" "air" "AA" "Jy" [1] [10] [0] []).join
        (Spectrum.mk "b" "air" "AA" "Jy" [3] [20] [0] []) = some J ∧
      J.split 2 = (some P1, some P2) ∧
      P1.x = [1] ∧ P1.y = [10] ∧ P2.x = [3] ∧ P2.y = [20] := by
  obtain ⟨J, P1, P2, hj, hs, hx1, hy1, -, hx2, hy2, -⟩ :=
    join_split_roundtrip (Spectrum.mk "a" "air" "AA" "Jy" [1] [10] [0] [])
      (Spectrum.mk "b" "air" "AA" "Jy" [3] [20] [0] []) 2
      ⟨rfl, rfl, by intro a ha; rw [List.mem_singleton.mp ha]⟩
      ⟨rfl, rfl, by intro a ha; rw [List.mem_singleton.mp ha]⟩
      rfl rfl rfl
      (by intro a ha; rw [List.mem_singleton.mp ha]; norm_num)
      (by intro a ha; rw [List.mem_singleton.mp ha]; norm_num)
  exact ⟨J, P1, P2, hj, hs, hx1, hy1, hx2, hy2⟩

end

end Spectra
